import Mathlib

/-!
Verification development for the DrawEasy repository.

The definitions below are a shallow embedding of the TypeScript source:

* `src/types.ts` — the data model (`ImageObject`, `ExpertInstruction`,
  `ExpertValidation`, `DrawingStep`, `AppStateEnum`).
* `src/services/geminiService.ts` — the bounded retry loop
  `generateValidatedStep`.  The two remote operations
  (`generateImageFromInstructions` and `expertValidateImage`) are modelled
  as oracle functions indexed by the global call number, so that one run of
  the loop corresponds to one choice of oracles.  The loop also returns the
  list of instruction payloads passed to each render+validate pair, in call
  order, so that call counts and the text handed to each attempt can be
  inspected.
* `src/unnamed/part_009` (the application component) — `resizeImage`,
  `processStep`, `handleAcceptStep`, `handleRetryStep`,
  `handleAreaRetryStep`, `handleCancelGeneration`, `handleReset` and the
  session state they operate on.  The asynchronous `processStep` is split
  into the synchronous prefix that runs before the `await`
  (`processStepStart`) and the continuation that runs when the awaited
  call settles (`processStepFinish`); user events may be interleaved
  between the two, exactly as in the browser event loop.
-/

namespace DrawEasy

/-- Image payload, from `src/types.ts` (`ImageObject`). -/
structure ImageObject where
  base64 : String
  mimeType : String
  deriving Repr, DecidableEq, Inhabited

/-- Instructions for one step, from `src/types.ts` (`ExpertInstruction`). -/
structure ExpertInstruction where
  stepNumber : Nat
  totalSteps : Nat
  targetCompleteness : Nat
  whatToDraw : String
  drawingInstructions : String
  avoidance : String
  deriving Repr, DecidableEq, Inhabited

/-- The `nextAction` enum of `ExpertValidation` in `src/types.ts`. -/
inductive NextAction where
  | regenerate
  | proceed
  deriving Repr, DecidableEq, Inhabited

/-- Validation verdict, from `src/types.ts` (`ExpertValidation`). -/
structure ExpertValidation where
  approved : Bool
  score : Nat
  issues : List String
  nextAction : NextAction
  feedbackForRegeneration : Option String
  instructionsForNextStep : Option ExpertInstruction
  deriving Repr, DecidableEq, Inhabited

/-- An accepted tutorial step, from `src/types.ts` (`DrawingStep`). -/
structure DrawingStep where
  step : Nat
  description : String
  imageUrl : String
  deriving Repr, DecidableEq, Inhabited

/-- Application state enum, from `src/types.ts` (`AppStateEnum`). -/
inductive AppStateEnum where
  | IDLE
  | LOADING
  | AWAITING_USER_INPUT
  | RESULTS
  | ERROR
  deriving Repr, DecidableEq, Inhabited

/-- JS template interpolation of a possibly `undefined` string, as in
the template literal on line 428 of `geminiService.ts`. -/
def optText : Option String → String
  | some s => s
  | none => "undefined"

/-- Whitespace characters removed by JS `String.prototype.trim`. -/
def isJsWs (c : Char) : Bool :=
  c = ' ' || c = '\t' || c = '\n' || c = '\r'

/-- JS `String.prototype.trim`, modelled over the character list so that
it evaluates by kernel reduction. -/
def jsTrim (s : String) : String :=
  ⟨((s.data.dropWhile isJsWs).reverse.dropWhile isJsWs).reverse⟩

/-- Lines 382–387 of `geminiService.ts`: when non-empty user feedback is
supplied, a fresh instruction object is built whose `drawingInstructions`
has the feedback appended. -/
def applyUserFeedback (ci : ExpertInstruction) (fb : Option String) : ExpertInstruction :=
  match fb with
  | some s =>
      if 0 < (jsTrim s).length then
        { ci with drawingInstructions :=
            ci.drawingInstructions ++ "\n\nUSER FEEDBACK: " ++ s }
      else ci
  | none => ci

/-- Lines 426–429 of `geminiService.ts`: after a rejected attempt a fresh
instruction object is built with the expert correction appended. -/
def applyExpertCorrection (instr : ExpertInstruction) (v : ExpertValidation) : ExpertInstruction :=
  { instr with drawingInstructions :=
      instr.drawingInstructions ++ "\n\nEXPERT CORRECTION: " ++ optText v.feedbackForRegeneration }

/-- Oracle for `generateImageFromInstructions`: the response of the remote
render call with the given global call index and instruction payload.
The reference image and previous canvas are fixed for a whole loop run and
are absorbed into the oracle. -/
def RenderO : Type := Nat → ExpertInstruction → ImageObject

/-- Oracle for `expertValidateImage`: the response of the remote validate
call with the given global call index, instruction payload and generated
image. -/
def ValidateO : Type := Nat → ExpertInstruction → ImageObject → ExpertValidation

/-- Return value of `generateValidatedStep` (lines 373–378 of
`geminiService.ts`). -/
structure LoopResult where
  image : ImageObject
  attempts : Nat
  finalScore : Nat
  validation : ExpertValidation
  deriving Repr, DecidableEq, Inhabited

/-- The retry loop body of `generateValidatedStep`
(`geminiService.ts` lines 389–454).  `idx` is the number of
render+validate pairs already issued (0 at entry), `r` the number of
`for` iterations still to run.  When `r` reaches 0 the fallback on lines
433–454 issues one final render+validate pair and returns its result with
`attempts := maxRetries`.  Inside the loop an approved validation returns
immediately with `attempts := idx + 1` (the loop counter `attempt`,
since the loop is always entered with `idx = 0`).  The correction is
appended only while `attempt < maxRetries`, i.e. while `r ≠ 0` after the
current iteration.  The second component lists the instruction payload of
every render+validate pair, in call order. -/
def loopAux (ro : RenderO) (vo : ValidateO) (maxRetries : Nat) :
    ExpertInstruction → Nat → Nat → LoopResult × List ExpertInstruction
  | instr, idx, 0 =>
      let img := ro idx instr
      let v := vo idx instr img
      (⟨img, maxRetries, v.score, v⟩, [instr])
  | instr, idx, Nat.succ r =>
      let img := ro idx instr
      let v := vo idx instr img
      if v.approved then
        (⟨img, idx + 1, v.score, v⟩, [instr])
      else
        let next := if r = 0 then instr else applyExpertCorrection instr v
        let rest := loopAux ro vo maxRetries next (idx + 1) r
        (rest.1, instr :: rest.2)

/-- `generateValidatedStep` (`geminiService.ts` lines 367–455), given
oracles for the two remote operations. -/
def generateValidatedStep (ro : RenderO) (vo : ValidateO) (ci : ExpertInstruction)
    (maxRetries : Nat) (userFeedback : Option String) : LoopResult × List ExpertInstruction :=
  loopAux ro vo maxRetries (applyUserFeedback ci userFeedback) 0 maxRetries

/-- The instruction payload the loop uses for the attempt with global call
index `k`, assuming every validation before attempt `k` was rejected:
each rejected attempt layers its expert correction onto the previous
payload. -/
def corrChain (ro : RenderO) (vo : ValidateO) (instr : ExpertInstruction) (idx : Nat) :
    Nat → ExpertInstruction
  | 0 => instr
  | Nat.succ k =>
      let p := corrChain ro vo instr idx k
      applyExpertCorrection p (vo (idx + k) p (ro (idx + k) p))

/-- The validation returned for attempt `idx + k`, assuming every earlier
attempt was rejected. -/
def chainVal (ro : RenderO) (vo : ValidateO) (instr : ExpertInstruction) (idx k : Nat) :
    ExpertValidation :=
  vo (idx + k) (corrChain ro vo instr idx k) (ro (idx + k) (corrChain ro vo instr idx k))

/-- Concatenation, in attempt order, of the correction texts layered onto
the instruction after each of the first `k` rejected attempts. -/
def corrTexts (ro : RenderO) (vo : ValidateO) (instr : ExpertInstruction) (idx : Nat) :
    Nat → String
  | 0 => ""
  | Nat.succ k =>
      corrTexts ro vo instr idx k ++
        ("\n\nEXPERT CORRECTION: " ++ optText (chainVal ro vo instr idx k).feedbackForRegeneration)

/-- Heap-based rendering of the retry loop, used to reason about object
identity.  JS objects live in a store (addresses are list indices); the
spread syntax on lines 383–386 and 426–429 of `geminiService.ts` appends a
fresh object to the store and rebinds the local `instructions` variable to
the new address, leaving every existing cell untouched.  The control flow
is the same as `loopAux`. -/
def loopAuxStore (ro : RenderO) (vo : ValidateO) (maxRetries : Nat) :
    Nat → List ExpertInstruction → Nat → Nat → LoopResult × List ExpertInstruction
  | addr, store, idx, 0 =>
      let instr := store.getD addr default
      let img := ro idx instr
      let v := vo idx instr img
      (⟨img, maxRetries, v.score, v⟩, store)
  | addr, store, idx, Nat.succ r =>
      let instr := store.getD addr default
      let img := ro idx instr
      let v := vo idx instr img
      if v.approved then
        (⟨img, idx + 1, v.score, v⟩, store)
      else
        let store' := if r = 0 then store else store ++ [applyExpertCorrection instr v]
        let addr' := if r = 0 then addr else store.length
        loopAuxStore ro vo maxRetries addr' store' (idx + 1) r

/-- Heap-based rendering of `generateValidatedStep`: the caller passes the
address of its `currentInstructions` object; the user-feedback update on
lines 382–387 allocates a fresh object rather than writing through the
caller's address. -/
def generateValidatedStepStore (ro : RenderO) (vo : ValidateO) (addr : Nat)
    (store : List ExpertInstruction) (maxRetries : Nat) (userFeedback : Option String) :
    LoopResult × List ExpertInstruction :=
  match userFeedback with
  | some s =>
      if 0 < (jsTrim s).length then
        let ci := store.getD addr default
        loopAuxStore ro vo maxRetries store.length
          (store ++ [{ ci with drawingInstructions :=
              ci.drawingInstructions ++ "\n\nUSER FEEDBACK: " ++ s }]) 0 maxRetries
      else loopAuxStore ro vo maxRetries addr store 0 maxRetries
  | none => loopAuxStore ro vo maxRetries addr store 0 maxRetries

/-- JS `Math.round (num / den)` for non-negative arguments: round half
away from zero, i.e. the floor of `num / den + 1 / 2`. -/
def jsRound (num den : Nat) : Nat := (2 * num + den) / (2 * den)

/-- The dimension computation of `resizeImage`
(`src/unnamed/part_009` lines 31–45): fit `(w, h)` within
`maxWidth × maxHeight`, preserving the aspect ratio, never upscaling. -/
def resizeDims (w h maxWidth maxHeight : Nat) : Nat × Nat :=
  if h < w then
    if maxWidth < w then (maxWidth, jsRound (h * maxWidth) w) else (w, h)
  else
    if maxHeight < h then (jsRound (w * maxHeight) h, maxHeight) else (w, h)

/-- Output of `resizeImage` (`src/unnamed/part_009` line 19). -/
structure ResizedImage where
  base64 : String
  mimeType : String
  width : Nat
  height : Nat
  deriving Repr, DecidableEq, Inhabited

/-- The success path of `resizeImage` (`src/unnamed/part_009` lines
19–67) for an input image that decodes to `w × h` pixels, called as in
line 204 with a 1024 × 1024 bound.  The canvas PNG encoding of the
flattened image is abstracted by `encode`; the resolved object always
carries the literal mime type `image/png` (line 61). -/
def resizeImage (encode : Nat → Nat → String) (w h : Nat) : ResizedImage :=
  let d := resizeDims w h 1024 1024
  ⟨encode d.1 d.2, "image/png", d.1, d.2⟩

/-- The session state of the `App` component (`src/unnamed/part_009`
lines 71–92): one field per `useState` hook that participates in the
tutorial state machine.  `abortController` is `some aborted` when a
controller is installed and `none` when the slot is `null`; the abort
signal is never threaded into the remote calls, so aborting has no other
observable effect. -/
structure Session where
  appState : AppStateEnum
  error : Option String
  statusMessage : String
  totalSteps : Nat
  acceptedSteps : List DrawingStep
  proposedStep : Option DrawingStep
  currentStepNumber : Nat
  originalImage : Option ImageObject
  currentCanvas : Option ImageObject
  proposedStepInstructions : Option ExpertInstruction
  nextStepInstructions : Option ExpertInstruction
  validationAttempts : Nat
  validationScore : Option Nat
  abortController : Option Bool
  deriving Repr, DecidableEq, Inhabited

/-- The initial hook values of `App` (`src/unnamed/part_009` lines
71–92): `IDLE`, ten total steps, step counter 1, everything else empty. -/
def initialSession : Session where
  appState := AppStateEnum.IDLE
  error := none
  statusMessage := ""
  totalSteps := 10
  acceptedSteps := []
  proposedStep := none
  currentStepNumber := 1
  originalImage := none
  currentCanvas := none
  proposedStepInstructions := none
  nextStepInstructions := none
  validationAttempts := 0
  validationScore := none
  abortController := none

/-- How the awaited `generateValidatedStep` call inside `processStep`
settles: with a result, or by throwing an error message. -/
inductive StepOutcome where
  | ok (r : LoopResult)
  | err (msg : String)
  deriving Repr, DecidableEq, Inhabited

/-- The arguments `processStep` is invoked with
(`src/unnamed/part_009` lines 96–101). -/
structure PendingCall where
  instructions : ExpertInstruction
  canvas : Option ImageObject
  original : ImageObject
  feedback : Option String
  deriving Repr, DecidableEq, Inhabited

/-- Data URL construction on line 143 of `src/unnamed/part_009`. -/
def dataUrl (img : ImageObject) : String :=
  "data:" ++ img.mimeType ++ ";base64," ++ img.base64

/-- The synchronous prefix of `processStep`
(`src/unnamed/part_009` lines 102–117): install a fresh abort
controller, enter `LOADING`, clear the proposed step and the quality
metrics, then issue the remote call.  The `controller.signal.aborted`
check on line 115 reads the controller created two statements earlier, so
it can never fire and is not modelled. -/
def processStepStart (s : Session) (instructions : ExpertInstruction) : Session :=
  { s with
      abortController := some false
      appState := AppStateEnum.LOADING
      statusMessage := "Expert is analyzing and generating step " ++
        toString instructions.stepNumber ++ " of " ++ toString s.totalSteps ++ "..."
      proposedStep := none
      validationAttempts := 0
      validationScore := none }

/-- JS `msg.includes("cancelled")` on line 164 of
`src/unnamed/part_009`: substring occurrence, over character lists. -/
def includesCancelled (msg : String) : Bool :=
  decide ("cancelled".data <:+: msg.data)

/-- The continuation of `processStep` after the awaited call settles
(`src/unnamed/part_009` lines 129–174): on success store the metrics,
the proposed step and the instructions, remember next-step instructions
when present, and enter `AWAITING_USER_INPUT`; on an error whose message
mentions cancellation go silently to `IDLE`, otherwise record the message
and enter `ERROR`.  The `finally` block clears the controller slot on
every path.  Note that no abort check guards this continuation. -/
def processStepFinish (s : Session) (instructions : ExpertInstruction)
    (out : StepOutcome) : Session :=
  match out with
  | StepOutcome.ok r =>
      { s with
          validationAttempts := r.attempts
          validationScore := some r.finalScore
          proposedStep := some
            ⟨instructions.stepNumber, instructions.whatToDraw, dataUrl r.image⟩
          proposedStepInstructions := some instructions
          nextStepInstructions :=
            r.validation.instructionsForNextStep.orElse (fun _ => s.nextStepInstructions)
          appState := AppStateEnum.AWAITING_USER_INPUT
          abortController := none }
  | StepOutcome.err msg =>
      if includesCancelled msg then
        { s with appState := AppStateEnum.IDLE, abortController := none }
      else
        { s with
            error := some ("Failed to generate step " ++
              toString instructions.stepNumber ++ ". " ++ msg)
            appState := AppStateEnum.ERROR
            abortController := none }

/-- `handleCancelGeneration` (`src/unnamed/part_009` lines 302–309):
abort and drop the controller, go to `IDLE`, clear the status line. -/
def handleCancelGeneration (s : Session) : Session :=
  { s with abortController := none, appState := AppStateEnum.IDLE, statusMessage := "" }

/-- The characters following the first occurrence of `mark`, or the empty
list when `mark` does not occur: the `[1]` element of a JS
`split(mark)` on a string with a single occurrence of `mark`. -/
def afterFirstMark (mark : List Char) : List Char → List Char
  | [] => []
  | c :: cs =>
      if mark.isPrefixOf (c :: cs) then (c :: cs).drop mark.length
      else afterFirstMark mark cs

/-- Canvas extraction from the accepted step's data URL
(`src/unnamed/part_009` lines 255–257): `split(";base64,")[1]` recovers
the payload, and `substring(5, indexOf(";"))` is the text between
`data:` and the first semicolon.  The URLs built by the app always
contain both markers. -/
def canvasOfProposed (url : String) : ImageObject :=
  ⟨⟨afterFirstMark ";base64,".data url.data⟩,
   ⟨(url.data.takeWhile (fun c => !(c = ';'))).drop 5⟩⟩

/-- `handleAcceptStep` (`src/unnamed/part_009` lines 246–275): append
the proposed step, update the canvas, clear the proposal, advance the
step counter; then either launch `processStep` for the next step (when
steps remain and next-step instructions are available) or enter
`RESULTS`.  The second component is the `processStep` invocation, when
one is made. -/
def handleAcceptStep (s : Session) : Session × Option PendingCall :=
  match s.proposedStep, s.originalImage with
  | some ps, some oi =>
      let newCanvas := canvasOfProposed ps.imageUrl
      let nextStepNumber := s.currentStepNumber + 1
      let s1 := { s with
        acceptedSteps := s.acceptedSteps ++ [ps]
        currentCanvas := some newCanvas
        proposedStep := none
        proposedStepInstructions := none
        currentStepNumber := nextStepNumber }
      match s.nextStepInstructions with
      | some ni =>
          if nextStepNumber ≤ s.totalSteps then
            (processStepStart s1 ni, some ⟨ni, some newCanvas, oi, none⟩)
          else
            ({ s1 with appState := AppStateEnum.RESULTS }, none)
      | none => ({ s1 with appState := AppStateEnum.RESULTS }, none)
  | _, _ => (s, none)

/-- `handleRetryStep` (`src/unnamed/part_009` lines 278–281): re-run
`processStep` for the same instructions and canvas with the given
feedback. -/
def handleRetryStep (s : Session) (feedback : String) : Session × Option PendingCall :=
  match s.proposedStepInstructions, s.originalImage with
  | some pi, some oi =>
      (processStepStart s pi, some ⟨pi, s.currentCanvas, oi, some feedback⟩)
  | _, _ => (s, none)

/-- A selected region, in tenths of a percent per coordinate, so that the
`toFixed(1)` rendering of each coordinate is exact. -/
structure AreaRegion where
  x : Nat
  y : Nat
  width : Nat
  height : Nat
  deriving Repr, DecidableEq, Inhabited

/-- JS `n.toFixed(1)` for a non-negative value given in tenths. -/
def toFixed1 (tenths : Nat) : String :=
  toString (tenths / 10) ++ "." ++ toString (tenths % 10)

/-- The synthesized feedback of `handleAreaRetryStep`
(`src/unnamed/part_009` lines 290–296). -/
def areaFeedbackText (a : AreaRegion) (feedback : String) : String :=
  "FOCUSED AREA CORRECTION:\nArea coordinates: x=" ++ toFixed1 a.x ++
    "%, y=" ++ toFixed1 a.y ++
    "%, width=" ++ toFixed1 a.width ++
    "%, height=" ++ toFixed1 a.height ++
    "%\nThis represents the specific region that needs improvement.\n\nUSER FEEDBACK FOR THIS AREA: " ++
    feedback ++
    "\n\nIMPORTANT: Focus your improvements ONLY on the specified area. Keep the rest of the drawing exactly as it is. The area represents a specific part of the image that the user wants to refine."

/-- `handleAreaRetryStep` (`src/unnamed/part_009` lines 285–299): like
`handleRetryStep`, with the region-annotated feedback text. -/
def handleAreaRetryStep (s : Session) (a : AreaRegion) (feedback : String) :
    Session × Option PendingCall :=
  match s.proposedStepInstructions, s.originalImage with
  | some pi, some oi =>
      (processStepStart s pi, some ⟨pi, s.currentCanvas, oi, some (areaFeedbackText a feedback)⟩)
  | _, _ => (s, none)

/-- `handleReset` (`src/unnamed/part_009` lines 312–332). -/
def handleReset (s : Session) : Session :=
  { s with
      appState := AppStateEnum.IDLE
      acceptedSteps := []
      proposedStep := none
      currentStepNumber := 1
      originalImage := none
      currentCanvas := none
      proposedStepInstructions := none
      nextStepInstructions := none
      error := none
      statusMessage := ""
      validationAttempts := 0
      validationScore := none
      abortController := none }

/-- The success path of `handleImageUpload` up to the `processStep` call
(`src/unnamed/part_009` lines 179–225): reset the run state, store the
normalized image, then invoke `processStep` with the first-step
instructions and no previous canvas. -/
def handleImageUploadSucceed (s : Session) (img : ImageObject)
    (firstInstr : ExpertInstruction) : Session × PendingCall :=
  let s1 := { s with
    abortController := some false
    appState := AppStateEnum.LOADING
    error := none
    acceptedSteps := []
    proposedStep := none
    currentStepNumber := 1
    currentCanvas := none
    proposedStepInstructions := none
    nextStepInstructions := none
    validationAttempts := 0
    validationScore := none
    statusMessage := "Preparing your image..." }
  let s2 := { s1 with
    originalImage := some img
    statusMessage := "Expert is analyzing the image and planning the first step..." }
  (processStepStart s2 firstInstr, ⟨firstInstr, none, img, none⟩)

/-- A run of the accept cycle: while a `processStep` invocation is
pending, let it settle with the oracle result for its step number and
immediately accept the proposed step, `n` times. -/
def acceptRun (results : Nat → LoopResult) :
    Nat → Session × Option PendingCall → Session × Option PendingCall
  | 0, sp => sp
  | Nat.succ n, (s, some p) =>
      acceptRun results n
        (handleAcceptStep (processStepFinish s p.instructions
          (StepOutcome.ok (results p.instructions.stepNumber))))
  | Nat.succ _, (s, none) => (s, none)

/-! Lemmas about the retry loop. -/

theorem corrChain_shift (ro : RenderO) (vo : ValidateO) (instr : ExpertInstruction)
    (idx : Nat) : ∀ k, corrChain ro vo instr idx (k + 1) =
      corrChain ro vo (applyExpertCorrection instr (vo idx instr (ro idx instr))) (idx + 1) k := by
  intro k
  induction k with
  | zero => simp [corrChain]
  | succ k ih =>
      have harith : idx + (k + 1) = idx + 1 + k := by omega
      rw [corrChain, ih, harith, corrChain]

theorem chainVal_shift (ro : RenderO) (vo : ValidateO) (instr : ExpertInstruction)
    (idx k : Nat) : chainVal ro vo instr idx (k + 1) =
      chainVal ro vo (applyExpertCorrection instr (vo idx instr (ro idx instr))) (idx + 1) k := by
  have harith : idx + (k + 1) = idx + 1 + k := by omega
  rw [chainVal, chainVal, corrChain_shift, harith]

theorem loopAux_calls_length_le (ro : RenderO) (vo : ValidateO) (maxRetries : Nat) :
    ∀ r instr idx, (loopAux ro vo maxRetries instr idx r).2.length ≤ r + 1 := by
  intro r
  induction r with
  | zero => intro instr idx; simp [loopAux]
  | succ r ih =>
      intro instr idx
      rw [loopAux]
      by_cases h : (vo idx instr (ro idx instr)).approved
      · simp [h]
      · have := ih (if r = 0 then instr else
          applyExpertCorrection instr (vo idx instr (ro idx instr))) (idx + 1)
        simp only [h, Bool.false_eq_true, if_false, List.length_cons]
        omega

/-- The validation of the fallback render issued after `r + 1` rejected
attempts starting at call index `idx`: the fallback reuses the payload of
the last attempt (the last correction is skipped because the `attempt <
maxRetries` guard fails on the final iteration). -/
def finalVal (ro : RenderO) (vo : ValidateO) (instr : ExpertInstruction) (idx r : Nat) :
    ExpertValidation :=
  vo (idx + r + 1) (corrChain ro vo instr idx r)
    (ro (idx + r + 1) (corrChain ro vo instr idx r))

theorem loopAux_never (ro : RenderO) (vo : ValidateO) (maxRetries : Nat)
    (hNA : ∀ i a b, (vo i a b).approved = false) :
    ∀ r instr idx,
      loopAux ro vo maxRetries instr idx (r + 1) =
        (⟨ro (idx + r + 1) (corrChain ro vo instr idx r), maxRetries,
          (finalVal ro vo instr idx r).score,
          finalVal ro vo instr idx r⟩,
         (List.range (r + 1)).map (corrChain ro vo instr idx) ++
           [corrChain ro vo instr idx r]) := by
  intro r
  induction r with
  | zero =>
      intro instr idx
      rw [loopAux]
      simp [loopAux, hNA, finalVal, corrChain]
      rfl
  | succ r ih =>
      intro instr idx
      have h1 : ∀ j, corrChain ro vo
          (applyExpertCorrection instr (vo idx instr (ro idx instr))) (idx + 1) j =
          corrChain ro vo instr idx (j + 1) :=
        fun j => (corrChain_shift ro vo instr idx j).symm
      have h2 : finalVal ro vo
          (applyExpertCorrection instr (vo idx instr (ro idx instr))) (idx + 1) r =
          finalVal ro vo instr idx (r + 1) := by
        rw [finalVal, finalVal, h1]
        have harith : idx + 1 + r + 1 = idx + (r + 1) + 1 := by omega
        rw [harith]
      have hlist : (List.range (r + 1 + 1)).map (corrChain ro vo instr idx) =
          corrChain ro vo instr idx 0 ::
            (List.range (r + 1)).map (corrChain ro vo
              (applyExpertCorrection instr (vo idx instr (ro idx instr))) (idx + 1)) := by
        rw [List.range_succ_eq_map, List.map_cons, List.map_map]
        congr 1
        apply List.map_congr_left
        intro a _
        show corrChain ro vo instr idx (a + 1) = _
        rw [h1]
      rw [loopAux]
      simp only [hNA, Bool.false_eq_true, if_false, Nat.succ_ne_zero]
      rw [ih]
      have harith2 : idx + 1 + r + 1 = idx + (r + 1) + 1 := by omega
      rw [Prod.mk.injEq]
      refine ⟨?_, ?_⟩
      · rw [h1, h2, harith2]
      · rw [hlist, h1]
        show _ :: (_ ++ _) = (_ :: _) ++ _
        rw [List.cons_append]
        rfl

theorem loopAux_approved (ro : RenderO) (vo : ValidateO) (maxRetries : Nat) :
    ∀ k instr idx r, k < r →
      (∀ j, j < k → (chainVal ro vo instr idx j).approved = false) →
      (chainVal ro vo instr idx k).approved = true →
      loopAux ro vo maxRetries instr idx r =
        (⟨ro (idx + k) (corrChain ro vo instr idx k), idx + k + 1,
          (chainVal ro vo instr idx k).score, chainVal ro vo instr idx k⟩,
         (List.range (k + 1)).map (corrChain ro vo instr idx)) := by
  intro k
  induction k with
  | zero =>
      intro instr idx r hk hprev happ
      obtain ⟨r', rfl⟩ : ∃ r', r = r' + 1 := ⟨r - 1, by omega⟩
      have h0 : (vo idx instr (ro idx instr)).approved = true := happ
      rw [loopAux]
      simp [h0, chainVal, corrChain]
      rfl
  | succ k ih =>
      intro instr idx r hk hprev happ
      obtain ⟨r', rfl⟩ : ∃ r', r = r' + 1 := ⟨r - 1, by omega⟩
      have hkr : k < r' := by omega
      have hne : ¬ r' = 0 := by omega
      have h0 : (vo idx instr (ro idx instr)).approved = false := hprev 0 (Nat.succ_pos k)
      have h1 : ∀ j, corrChain ro vo
          (applyExpertCorrection instr (vo idx instr (ro idx instr))) (idx + 1) j =
          corrChain ro vo instr idx (j + 1) :=
        fun j => (corrChain_shift ro vo instr idx j).symm
      have hv : ∀ j, chainVal ro vo
          (applyExpertCorrection instr (vo idx instr (ro idx instr))) (idx + 1) j =
          chainVal ro vo instr idx (j + 1) :=
        fun j => (chainVal_shift ro vo instr idx j).symm
      have hprev' : ∀ j, j < k → (chainVal ro vo
          (applyExpertCorrection instr (vo idx instr (ro idx instr))) (idx + 1) j).approved
            = false := by
        intro j hj
        rw [hv]
        exact hprev (j + 1) (by omega)
      have happ' : (chainVal ro vo
          (applyExpertCorrection instr (vo idx instr (ro idx instr))) (idx + 1) k).approved
            = true := by
        rw [hv]; exact happ
      have hlist : (List.range (k + 1 + 1)).map (corrChain ro vo instr idx) =
          corrChain ro vo instr idx 0 ::
            (List.range (k + 1)).map (corrChain ro vo
              (applyExpertCorrection instr (vo idx instr (ro idx instr))) (idx + 1)) := by
        rw [List.range_succ_eq_map, List.map_cons, List.map_map]
        congr 1
        apply List.map_congr_left
        intro a _
        show corrChain ro vo instr idx (a + 1) = _
        rw [h1]
      rw [loopAux]
      simp only [h0, Bool.false_eq_true, if_false, hne]
      rw [ih _ (idx + 1) r' hkr hprev' happ']
      have harith : idx + 1 + k = idx + (k + 1) := by omega
      rw [Prod.mk.injEq]
      refine ⟨?_, ?_⟩
      · rw [h1, hv, harith]
      · rw [hlist]
        rfl

theorem loopAux_calls_get (ro : RenderO) (vo : ValidateO) (maxRetries : Nat) :
    ∀ k instr idx r, k < r →
      (∀ j, j < k → (chainVal ro vo instr idx j).approved = false) →
      (loopAux ro vo maxRetries instr idx r).2[k]? = some (corrChain ro vo instr idx k) := by
  intro k
  induction k with
  | zero =>
      intro instr idx r hk hprev
      obtain ⟨r', rfl⟩ : ∃ r', r = r' + 1 := ⟨r - 1, by omega⟩
      rw [loopAux]
      by_cases h : (vo idx instr (ro idx instr)).approved
      · simp [h, corrChain]
      · simp [h, corrChain]
  | succ k ih =>
      intro instr idx r hk hprev
      obtain ⟨r', rfl⟩ : ∃ r', r = r' + 1 := ⟨r - 1, by omega⟩
      have hkr : k < r' := by omega
      have hne : ¬ r' = 0 := by omega
      have h0 : (vo idx instr (ro idx instr)).approved = false := hprev 0 (Nat.succ_pos k)
      have hv : ∀ j, chainVal ro vo
          (applyExpertCorrection instr (vo idx instr (ro idx instr))) (idx + 1) j =
          chainVal ro vo instr idx (j + 1) :=
        fun j => (chainVal_shift ro vo instr idx j).symm
      have hprev' : ∀ j, j < k → (chainVal ro vo
          (applyExpertCorrection instr (vo idx instr (ro idx instr))) (idx + 1) j).approved
            = false := by
        intro j hj
        rw [hv]
        exact hprev (j + 1) (by omega)
      rw [loopAux]
      simp only [h0, Bool.false_eq_true, if_false, hne]
      show (_ :: _)[k + 1]? = _
      rw [List.getElem?_cons_succ]
      rw [ih _ (idx + 1) r' hkr hprev']
      rw [corrChain_shift]

theorem corrChain_drawing (ro : RenderO) (vo : ValidateO) (instr : ExpertInstruction)
    (idx : Nat) : ∀ k, (corrChain ro vo instr idx k).drawingInstructions =
      instr.drawingInstructions ++ corrTexts ro vo instr idx k := by
  intro k
  induction k with
  | zero => simp [corrChain, corrTexts]
  | succ k ih =>
      show (applyExpertCorrection _ _).drawingInstructions = _
      rw [applyExpertCorrection]
      simp only []
      rw [ih, corrTexts]
      rw [String.append_assoc, String.append_assoc]
      rfl

/-- The correction chain never touches any field other than
`drawingInstructions`. -/
theorem corrChain_frame (ro : RenderO) (vo : ValidateO) (instr : ExpertInstruction)
    (idx : Nat) : ∀ k,
      (corrChain ro vo instr idx k).stepNumber = instr.stepNumber ∧
      (corrChain ro vo instr idx k).totalSteps = instr.totalSteps ∧
      (corrChain ro vo instr idx k).targetCompleteness = instr.targetCompleteness ∧
      (corrChain ro vo instr idx k).whatToDraw = instr.whatToDraw ∧
      (corrChain ro vo instr idx k).avoidance = instr.avoidance := by
  intro k
  induction k with
  | zero => exact ⟨rfl, rfl, rfl, rfl, rfl⟩
  | succ k ih => exact ih

/-- The heap loop only ever appends freshly allocated objects: the store
it returns extends the store it was given. -/
theorem loopAuxStore_extends (ro : RenderO) (vo : ValidateO) (maxRetries : Nat) :
    ∀ r addr store idx,
      ∃ ext, (loopAuxStore ro vo maxRetries addr store idx r).2 = store ++ ext := by
  intro r
  induction r with
  | zero => intro addr store idx; exact ⟨[], by simp [loopAuxStore]⟩
  | succ r ih =>
      intro addr store idx
      by_cases h : (vo idx (store.getD addr default) (ro idx (store.getD addr default))).approved = true
      · refine ⟨[], ?_⟩
        simp only [loopAuxStore]
        rw [if_pos h, List.append_nil]
      · by_cases hr : r = 0
        · obtain ⟨ext, hext⟩ := ih addr store (idx + 1)
          refine ⟨ext, ?_⟩
          simp only [loopAuxStore]
          rw [if_neg h, if_pos hr, if_pos hr]
          exact hext
        · obtain ⟨ext, hext⟩ := ih store.length
            (store ++ [applyExpertCorrection (store.getD addr default)
              (vo idx (store.getD addr default) (ro idx (store.getD addr default)))]) (idx + 1)
          refine ⟨[applyExpertCorrection (store.getD addr default)
            (vo idx (store.getD addr default) (ro idx (store.getD addr default)))] ++ ext, ?_⟩
          simp only [loopAuxStore]
          rw [if_neg h, if_neg hr, if_neg hr, hext, List.append_assoc]

/-- The heap loop computes the same result as the functional loop run on
the object the caller's address points to. -/
theorem loopAuxStore_fst (ro : RenderO) (vo : ValidateO) (maxRetries : Nat) :
    ∀ r addr store idx,
      (loopAuxStore ro vo maxRetries addr store idx r).1 =
        (loopAux ro vo maxRetries (store.getD addr default) idx r).1 := by
  intro r
  induction r with
  | zero => intro addr store idx; rfl
  | succ r ih =>
      intro addr store idx
      simp only [loopAuxStore, loopAux]
      by_cases h : (vo idx (store.getD addr default) (ro idx (store.getD addr default))).approved = true
      · rw [if_pos h, if_pos h]
      · rw [if_neg h, if_neg h]
        by_cases hr : r = 0
        · rw [if_pos hr, if_pos hr, if_pos hr]
          exact ih addr store (idx + 1)
        · rw [if_neg hr, if_neg hr, if_neg hr]
          rw [ih store.length _ (idx + 1)]
          have hget : (store ++ [applyExpertCorrection (store.getD addr default)
              (vo idx (store.getD addr default) (ro idx (store.getD addr default)))]).getD
              store.length default =
              applyExpertCorrection (store.getD addr default)
                (vo idx (store.getD addr default) (ro idx (store.getD addr default))) := by
            simp [List.getD]
          rw [hget]

/-! Concrete oracles for worked examples. -/

/-- A sample instruction payload. -/
def exInstr : ExpertInstruction :=
  ⟨2, 10, 20, "draw the outline", "base text", "no details"⟩

/-- Render oracle whose i-th call returns a distinguishable image. -/
def exRender : RenderO := fun i _ => ⟨"img" ++ toString (i + 1), "image/png"⟩

/-- Validate oracle that never approves; attempt scores 40, 55, 60, and 10
for the fallback validation. -/
def exValNever : ValidateO := fun i _ _ =>
  ⟨false, [40, 55, 60, 10].getD i 0, [], NextAction.regenerate,
    some ("fix" ++ toString (i + 1)), none⟩

/-- Validate oracle with attempt scores 40, 55, 90 and approval modeled as
score at least 70. -/
def exValThreshold : ValidateO := fun i _ _ =>
  ⟨decide (70 ≤ [40, 55, 90].getD i 0), [40, 55, 90].getD i 0, [],
    NextAction.regenerate, some "fix", none⟩

/-! Claim C1. -/

/-- C1 is false on the code: with attempt scores 40, 55, 60 and `R = 3`,
none approved, `generateValidatedStep` does not return the recorded
attempt with the highest score (the third attempt's image `img3`, score
60); it issues a fourth render+validate pair and returns that fresh image
with the fresh validation's score. -/
theorem bestOfR_fallback_counterexample :
    (generateValidatedStep exRender exValNever exInstr 3 none).1.image.base64 = "img4" ∧
    (generateValidatedStep exRender exValNever exInstr 3 none).1.finalScore = 10 ∧
    (generateValidatedStep exRender exValNever exInstr 3 none).1.attempts = 3 ∧
    ¬ (generateValidatedStep exRender exValNever exInstr 3 none).1.image.base64 = "img3" ∧
    ¬ (generateValidatedStep exRender exValNever exInstr 3 none).1.finalScore = 60 := by
  decide

/-- C1 (amended): when no attempt is approved, the loop does not compare
the recorded scores at all; it issues one additional render with the
accumulated instructions (the last rejected attempt's payload, since the
final correction is skipped) and one additional validation of that fresh
image, and returns the fresh image and validation with `attempts = R` and
`finalScore` equal to the fresh validation's score. -/
theorem generateValidatedStep_no_approval (ro : RenderO) (vo : ValidateO)
    (ci : ExpertInstruction) (userFeedback : Option String) (r : Nat)
    (hNA : ∀ i a b, (vo i a b).approved = false) :
    generateValidatedStep ro vo ci (r + 1) userFeedback =
      (⟨ro (r + 1) (corrChain ro vo (applyUserFeedback ci userFeedback) 0 r), r + 1,
        (finalVal ro vo (applyUserFeedback ci userFeedback) 0 r).score,
        finalVal ro vo (applyUserFeedback ci userFeedback) 0 r⟩,
       (List.range (r + 1)).map (corrChain ro vo (applyUserFeedback ci userFeedback) 0) ++
         [corrChain ro vo (applyUserFeedback ci userFeedback) 0 r]) := by
  have h := loopAux_never ro vo (r + 1) hNA r (applyUserFeedback ci userFeedback) 0
  simpa [generateValidatedStep] using h

/-- Witness for `generateValidatedStep_no_approval` at the concrete
never-approving oracles with `R = 3`. -/
theorem generateValidatedStep_no_approval_witness :
    generateValidatedStep exRender exValNever exInstr (2 + 1) none =
      (⟨exRender (2 + 1) (corrChain exRender exValNever (applyUserFeedback exInstr none) 0 2),
        2 + 1,
        (finalVal exRender exValNever (applyUserFeedback exInstr none) 0 2).score,
        finalVal exRender exValNever (applyUserFeedback exInstr none) 0 2⟩,
       (List.range (2 + 1)).map (corrChain exRender exValNever (applyUserFeedback exInstr none) 0) ++
         [corrChain exRender exValNever (applyUserFeedback exInstr none) 0 2]) :=
  generateValidatedStep_no_approval exRender exValNever exInstr none 2 (fun _ _ _ => rfl)

/-! Claim C4. -/

/-- C4 is false on the code: with `R = 3` and no approval, the loop
issues 4 render+validate pairs, not at most 3. -/
theorem call_bound_counterexample :
    (generateValidatedStep exRender exValNever exInstr 3 none).2.length = 4 ∧
    ¬ (generateValidatedStep exRender exValNever exInstr 3 none).2.length ≤ 3 := by
  decide

/-- C4 (amended): the loop performs at most `maxRetries + 1`
render+validate pairs, at most `maxRetries` pairs when some attempt
within the loop is approved (the loop stops at the first approved
attempt), and exactly `maxRetries + 1` when no attempt is approved (the
extra pair being the unconditional fallback). -/
theorem generateValidatedStep_call_bound (ro : RenderO) (vo : ValidateO)
    (ci : ExpertInstruction) (maxRetries : Nat) (userFeedback : Option String) :
    (generateValidatedStep ro vo ci maxRetries userFeedback).2.length ≤ maxRetries + 1 ∧
    ((∃ k, k < maxRetries ∧
        (chainVal ro vo (applyUserFeedback ci userFeedback) 0 k).approved = true) →
      (generateValidatedStep ro vo ci maxRetries userFeedback).2.length ≤ maxRetries) ∧
    ((∀ i a b, (vo i a b).approved = false) →
      (generateValidatedStep ro vo ci maxRetries userFeedback).2.length = maxRetries + 1) := by
  refine ⟨loopAux_calls_length_le ro vo maxRetries maxRetries _ 0, ?_, ?_⟩
  · rintro ⟨k, hk, happ⟩
    have hex : ∃ j,
        (chainVal ro vo (applyUserFeedback ci userFeedback) 0 j).approved = true :=
      ⟨k, happ⟩
    have hk0 : (chainVal ro vo (applyUserFeedback ci userFeedback) 0
        (Nat.find hex)).approved = true := Nat.find_spec hex
    have hk0le : Nat.find hex ≤ k := Nat.find_min' hex happ
    have hk0lt : Nat.find hex < maxRetries := lt_of_le_of_lt hk0le hk
    have hprev : ∀ j, j < Nat.find hex →
        (chainVal ro vo (applyUserFeedback ci userFeedback) 0 j).approved = false := by
      intro j hj
      simpa using Nat.find_min hex hj
    rw [generateValidatedStep,
      loopAux_approved ro vo maxRetries (Nat.find hex) _ 0 maxRetries hk0lt hprev hk0]
    simp only [List.length_map, List.length_range]
    omega
  · intro hNA
    cases maxRetries with
    | zero => rfl
    | succ r =>
        rw [generateValidatedStep, loopAux_never ro vo (r + 1) hNA r _ 0]
        simp

/-- Witness for `generateValidatedStep_call_bound`: the never-approving
oracles with `R = 3` hit the exact count of 4 pairs, and the
threshold-70 oracles, approved at attempt 3, stay within 3 pairs. -/
theorem generateValidatedStep_call_bound_witness :
    (generateValidatedStep exRender exValNever exInstr 3 none).2.length ≤ 3 + 1 ∧
    (generateValidatedStep exRender exValNever exInstr 3 none).2.length = 3 + 1 ∧
    (generateValidatedStep exRender exValThreshold exInstr 3 none).2.length ≤ 3 :=
  ⟨(generateValidatedStep_call_bound exRender exValNever exInstr 3 none).1,
   (generateValidatedStep_call_bound exRender exValNever exInstr 3 none).2.2
     (fun _ _ _ => rfl),
   (generateValidatedStep_call_bound exRender exValThreshold exInstr 3 none).2.1
     ⟨2, by decide, by decide⟩⟩

/-! Claim C6. -/

/-- C6: if the validations of the first `k` attempts are rejections and
attempt `k + 1` (0-based index `k`, with `k < R`) is approved, the loop
returns that attempt's image and validation immediately, with
`attempts = k + 1` and `finalScore` equal to that attempt's score, and
the call log shows exactly `k + 1` render+validate pairs — no further
remote calls are issued. -/
theorem generateValidatedStep_approved_stop (ro : RenderO) (vo : ValidateO)
    (ci : ExpertInstruction) (userFeedback : Option String) (k maxRetries : Nat)
    (hk : k < maxRetries)
    (hprev : ∀ j, j < k →
      (chainVal ro vo (applyUserFeedback ci userFeedback) 0 j).approved = false)
    (happ : (chainVal ro vo (applyUserFeedback ci userFeedback) 0 k).approved = true) :
    generateValidatedStep ro vo ci maxRetries userFeedback =
      (⟨ro k (corrChain ro vo (applyUserFeedback ci userFeedback) 0 k), k + 1,
        (chainVal ro vo (applyUserFeedback ci userFeedback) 0 k).score,
        chainVal ro vo (applyUserFeedback ci userFeedback) 0 k⟩,
       (List.range (k + 1)).map (corrChain ro vo (applyUserFeedback ci userFeedback) 0)) := by
  have h := loopAux_approved ro vo maxRetries k
    (applyUserFeedback ci userFeedback) 0 maxRetries hk hprev happ
  simpa [generateValidatedStep] using h

/-- Witness for `generateValidatedStep_approved_stop`: attempt scores
40, 55, 90 with approval at score 70 or more stop at attempt 3 with
`attempts = 3`, `finalScore = 90`, and exactly 3 remote call pairs. -/
theorem generateValidatedStep_approved_stop_witness :
    (generateValidatedStep exRender exValThreshold exInstr 3 none).1.attempts = 2 + 1 ∧
    (generateValidatedStep exRender exValThreshold exInstr 3 none).1.finalScore = 90 ∧
    (generateValidatedStep exRender exValThreshold exInstr 3 none).2.length = 2 + 1 := by
  have h := generateValidatedStep_approved_stop exRender exValThreshold exInstr none 2 3
    (by decide) (by decide) (by decide)
  rw [h]
  refine ⟨rfl, by decide, by decide⟩

/-! Claim C5. -/

/-- C5: non-empty user feedback is appended to `drawingInstructions`
before the first attempt, and the payload used for attempt `k + 1`
(0-based call index `k`, reachable because the first `k` validations were
rejections) carries the original instruction text followed by the user
feedback and then every prior correction text in attempt order. -/
theorem generateValidatedStep_feedback_accumulation (ro : RenderO) (vo : ValidateO)
    (ci : ExpertInstruction) (s : String) (k maxRetries : Nat)
    (hs : 0 < (jsTrim s).length) (hk : k < maxRetries)
    (hprev : ∀ j, j < k →
      (chainVal ro vo (applyUserFeedback ci (some s)) 0 j).approved = false) :
    (generateValidatedStep ro vo ci maxRetries (some s)).2[k]? =
      some (corrChain ro vo (applyUserFeedback ci (some s)) 0 k) ∧
    (corrChain ro vo (applyUserFeedback ci (some s)) 0 k).drawingInstructions =
      ci.drawingInstructions ++ "\n\nUSER FEEDBACK: " ++ s ++
        corrTexts ro vo (applyUserFeedback ci (some s)) 0 k := by
  constructor
  · have h := loopAux_calls_get ro vo maxRetries k
      (applyUserFeedback ci (some s)) 0 maxRetries hk hprev
    simpa [generateValidatedStep] using h
  · rw [corrChain_drawing, applyUserFeedback]
    rw [if_pos hs]

/-- Witness for `generateValidatedStep_feedback_accumulation`: two
rejected attempts with corrections `fix1` then `fix2` make attempt 3 run
on the original text plus the user feedback plus both corrections, in
order. -/
theorem generateValidatedStep_feedback_accumulation_witness :
    (generateValidatedStep exRender exValNever exInstr 3 (some "thicker lines")).2[2]? =
      some (corrChain exRender exValNever
        (applyUserFeedback exInstr (some "thicker lines")) 0 2) ∧
    (corrChain exRender exValNever
        (applyUserFeedback exInstr (some "thicker lines")) 0 2).drawingInstructions =
      exInstr.drawingInstructions ++ "\n\nUSER FEEDBACK: " ++ "thicker lines" ++
        corrTexts exRender exValNever
          (applyUserFeedback exInstr (some "thicker lines")) 0 2 :=
  generateValidatedStep_feedback_accumulation exRender exValNever exInstr
    "thicker lines" 2 3 (by decide) (by decide) (by decide)

/-! Claim C9. -/

/-- C9: the loop never writes through the caller's instruction address —
the store cell holding `currentInstructions` is unchanged when the call
returns (every update allocates a fresh object), and the result computed
through the heap agrees with the purely functional reading of the loop. -/
theorem generateValidatedStepStore_frame (ro : RenderO) (vo : ValidateO)
    (addr : Nat) (store : List ExpertInstruction) (maxRetries : Nat)
    (userFeedback : Option String) (haddr : addr < store.length) :
    ((generateValidatedStepStore ro vo addr store maxRetries userFeedback).2)[addr]? =
      store[addr]? ∧
    (generateValidatedStepStore ro vo addr store maxRetries userFeedback).1 =
      (generateValidatedStep ro vo (store.getD addr default) maxRetries userFeedback).1 := by
  match userFeedback with
  | none =>
      constructor
      · obtain ⟨ext, hext⟩ := loopAuxStore_extends ro vo maxRetries maxRetries addr store 0
        rw [generateValidatedStepStore]
        rw [hext]
        exact List.getElem?_append_left haddr
      · rw [generateValidatedStepStore, generateValidatedStep, applyUserFeedback]
        exact loopAuxStore_fst ro vo maxRetries maxRetries addr store 0
  | some s =>
      by_cases hs : 0 < (jsTrim s).length
      · constructor
        · obtain ⟨ext, hext⟩ := loopAuxStore_extends ro vo maxRetries maxRetries store.length
            (store ++ [{ store.getD addr default with drawingInstructions :=
              (store.getD addr default).drawingInstructions ++ "\n\nUSER FEEDBACK: " ++ s }]) 0
          rw [generateValidatedStepStore]
          rw [if_pos hs, hext, List.append_assoc]
          exact List.getElem?_append_left haddr
        · rw [generateValidatedStepStore, generateValidatedStep, applyUserFeedback]
          rw [if_pos hs, if_pos hs]
          rw [loopAuxStore_fst ro vo maxRetries maxRetries store.length _ 0]
          congr 1
          simp [List.getD]
      · constructor
        · obtain ⟨ext, hext⟩ := loopAuxStore_extends ro vo maxRetries maxRetries addr store 0
          rw [generateValidatedStepStore]
          rw [if_neg hs, hext]
          exact List.getElem?_append_left haddr
        · rw [generateValidatedStepStore, generateValidatedStep, applyUserFeedback]
          rw [if_neg hs, if_neg hs]
          exact loopAuxStore_fst ro vo maxRetries maxRetries addr store 0

/-- Witness for `generateValidatedStepStore_frame` at a one-cell store. -/
theorem generateValidatedStepStore_frame_witness :
    ((generateValidatedStepStore exRender exValNever 0 [exInstr] 3 none).2)[0]? =
      [exInstr][0]? ∧
    (generateValidatedStepStore exRender exValNever 0 [exInstr] 3 none).1 =
      (generateValidatedStep exRender exValNever ([exInstr].getD 0 default) 3 none).1 :=
  generateValidatedStepStore_frame exRender exValNever 0 [exInstr] 3 none (by decide)

/-! Claim C10. -/

/-- C10: when the awaited loop call of `processStep` throws, the session
history is untouched — `acceptedSteps`, `currentCanvas` and
`originalImage` keep the values they had when the transition began — the
proposed step stays cleared, the state moves to `ERROR` with the error
message recorded (or silently to `IDLE` when the message mentions
cancellation). -/
theorem processStep_error_frame (s : Session) (instructions : ExpertInstruction)
    (msg : String) :
    (processStepFinish (processStepStart s instructions) instructions
        (StepOutcome.err msg)).acceptedSteps = s.acceptedSteps ∧
    (processStepFinish (processStepStart s instructions) instructions
        (StepOutcome.err msg)).currentCanvas = s.currentCanvas ∧
    (processStepFinish (processStepStart s instructions) instructions
        (StepOutcome.err msg)).originalImage = s.originalImage ∧
    (processStepFinish (processStepStart s instructions) instructions
        (StepOutcome.err msg)).proposedStep = none ∧
    (processStepFinish (processStepStart s instructions) instructions
        (StepOutcome.err msg)).appState =
      (if includesCancelled msg then AppStateEnum.IDLE else AppStateEnum.ERROR) ∧
    (processStepFinish (processStepStart s instructions) instructions
        (StepOutcome.err msg)).error =
      (if includesCancelled msg then s.error
       else some ("Failed to generate step " ++
         toString instructions.stepNumber ++ ". " ++ msg)) := by
  cases hb : includesCancelled msg <;>
    simp [processStepFinish, processStepStart, hb]

/-! Claim C2. -/

/-- First-step instruction used in the cancellation-race run. -/
def c2Instr : ExpertInstruction :=
  ⟨1, 10, 10, "draw a rough oval", "start with the outline", "no details"⟩

/-- Loop result that arrives after the user cancelled. -/
def c2Result : LoopResult :=
  ⟨⟨"abc", "image/png"⟩, 1, 80, ⟨true, 80, [], NextAction.proceed, none, none⟩⟩

/-- C2 is violated by the code: cancel during the in-flight loop call
does move the session to `IDLE`, but when the call later resolves,
`processStep` applies the stale result anyway — the abort signal is
neither threaded into the remote calls nor re-checked after the `await`
— so a proposed step is stored and the state moves to
`AWAITING_USER_INPUT`. -/
theorem cancellation_race_bug :
    (handleCancelGeneration (processStepStart initialSession c2Instr)).appState =
      AppStateEnum.IDLE ∧
    (processStepFinish (handleCancelGeneration (processStepStart initialSession c2Instr))
        c2Instr (StepOutcome.ok c2Result)).appState = AppStateEnum.AWAITING_USER_INPUT ∧
    ((processStepFinish (handleCancelGeneration (processStepStart initialSession c2Instr))
        c2Instr (StepOutcome.ok c2Result)).proposedStep).isSome = true :=
  ⟨rfl, rfl, rfl⟩

/-! Claim C7. -/

set_option maxRecDepth 8192 in
/-- C7: with a proposed step awaiting input, an area retry re-invokes
`processStep` for the same instructions (hence the same step number) and
the same previous canvas, and the synthesized feedback contains all four
region coordinates rendered with one decimal digit together with the
instruction to change only the selected area. -/
theorem handleAreaRetryStep_spec (s : Session) (a : AreaRegion) (fb : String)
    (pi : ExpertInstruction) (oi : ImageObject)
    (hpi : s.proposedStepInstructions = some pi) (hoi : s.originalImage = some oi) :
    handleAreaRetryStep s a fb =
      (processStepStart s pi,
       some ⟨pi, s.currentCanvas, oi, some (areaFeedbackText a fb)⟩) ∧
    (∃ p q, areaFeedbackText a fb = p ++ toFixed1 a.x ++ q) ∧
    (∃ p q, areaFeedbackText a fb = p ++ toFixed1 a.y ++ q) ∧
    (∃ p q, areaFeedbackText a fb = p ++ toFixed1 a.width ++ q) ∧
    (∃ p q, areaFeedbackText a fb = p ++ toFixed1 a.height ++ q) ∧
    (∃ p q, areaFeedbackText a fb =
      p ++ "IMPORTANT: Focus your improvements ONLY on the specified area. Keep the rest of the drawing exactly as it is." ++ q) := by
  refine ⟨?_, ?_, ?_, ?_, ?_, ?_⟩
  · simp only [handleAreaRetryStep, hpi, hoi]
  · exact ⟨"FOCUSED AREA CORRECTION:\nArea coordinates: x=",
      "%, y=" ++ toFixed1 a.y ++ "%, width=" ++ toFixed1 a.width ++ "%, height=" ++
        toFixed1 a.height ++
        "%\nThis represents the specific region that needs improvement.\n\nUSER FEEDBACK FOR THIS AREA: " ++
        fb ++
        "\n\nIMPORTANT: Focus your improvements ONLY on the specified area. Keep the rest of the drawing exactly as it is. The area represents a specific part of the image that the user wants to refine.",
      by simp [areaFeedbackText, String.append_assoc]⟩
  · exact ⟨"FOCUSED AREA CORRECTION:\nArea coordinates: x=" ++ toFixed1 a.x ++ "%, y=",
      "%, width=" ++ toFixed1 a.width ++ "%, height=" ++ toFixed1 a.height ++
        "%\nThis represents the specific region that needs improvement.\n\nUSER FEEDBACK FOR THIS AREA: " ++
        fb ++
        "\n\nIMPORTANT: Focus your improvements ONLY on the specified area. Keep the rest of the drawing exactly as it is. The area represents a specific part of the image that the user wants to refine.",
      by simp [areaFeedbackText, String.append_assoc]⟩
  · exact ⟨"FOCUSED AREA CORRECTION:\nArea coordinates: x=" ++ toFixed1 a.x ++ "%, y=" ++
        toFixed1 a.y ++ "%, width=",
      "%, height=" ++ toFixed1 a.height ++
        "%\nThis represents the specific region that needs improvement.\n\nUSER FEEDBACK FOR THIS AREA: " ++
        fb ++
        "\n\nIMPORTANT: Focus your improvements ONLY on the specified area. Keep the rest of the drawing exactly as it is. The area represents a specific part of the image that the user wants to refine.",
      by simp [areaFeedbackText, String.append_assoc]⟩
  · exact ⟨"FOCUSED AREA CORRECTION:\nArea coordinates: x=" ++ toFixed1 a.x ++ "%, y=" ++
        toFixed1 a.y ++ "%, width=" ++ toFixed1 a.width ++ "%, height=",
      "%\nThis represents the specific region that needs improvement.\n\nUSER FEEDBACK FOR THIS AREA: " ++
        fb ++
        "\n\nIMPORTANT: Focus your improvements ONLY on the specified area. Keep the rest of the drawing exactly as it is. The area represents a specific part of the image that the user wants to refine.",
      by simp [areaFeedbackText, String.append_assoc]⟩
  · refine ⟨"FOCUSED AREA CORRECTION:\nArea coordinates: x=" ++ toFixed1 a.x ++ "%, y=" ++
        toFixed1 a.y ++ "%, width=" ++ toFixed1 a.width ++ "%, height=" ++
        toFixed1 a.height ++
        "%\nThis represents the specific region that needs improvement.\n\nUSER FEEDBACK FOR THIS AREA: " ++
        fb ++ "\n\n",
      " The area represents a specific part of the image that the user wants to refine.", ?_⟩
    have hsplit :
        "\n\nIMPORTANT: Focus your improvements ONLY on the specified area. Keep the rest of the drawing exactly as it is. The area represents a specific part of the image that the user wants to refine." =
        "\n\n" ++
          "IMPORTANT: Focus your improvements ONLY on the specified area. Keep the rest of the drawing exactly as it is." ++
          " The area represents a specific part of the image that the user wants to refine." := by
      decide
    rw [areaFeedbackText, hsplit]
    simp [String.append_assoc]

/-- Session used to witness the area-retry behaviour. -/
def c7Session : Session :=
  { initialSession with
      appState := AppStateEnum.AWAITING_USER_INPUT
      proposedStepInstructions := some exInstr
      originalImage := some ⟨"orig", "image/png"⟩
      currentCanvas := some ⟨"cv", "image/png"⟩ }

/-- Witness for `handleAreaRetryStep_spec` at the region of the spec
example, 10.0 / 20.0 / 30.0 / 15.0 percent. -/
theorem handleAreaRetryStep_spec_witness :
    handleAreaRetryStep c7Session ⟨100, 200, 300, 150⟩ "fix the roof" =
      (processStepStart c7Session exInstr,
       some ⟨exInstr, c7Session.currentCanvas, ⟨"orig", "image/png"⟩,
         some (areaFeedbackText ⟨100, 200, 300, 150⟩ "fix the roof")⟩) ∧
    (∃ p q, areaFeedbackText ⟨100, 200, 300, 150⟩ "fix the roof" =
      p ++ toFixed1 (100 : Nat) ++ q) ∧
    (∃ p q, areaFeedbackText ⟨100, 200, 300, 150⟩ "fix the roof" =
      p ++ toFixed1 (200 : Nat) ++ q) ∧
    (∃ p q, areaFeedbackText ⟨100, 200, 300, 150⟩ "fix the roof" =
      p ++ toFixed1 (300 : Nat) ++ q) ∧
    (∃ p q, areaFeedbackText ⟨100, 200, 300, 150⟩ "fix the roof" =
      p ++ toFixed1 (150 : Nat) ++ q) ∧
    (∃ p q, areaFeedbackText ⟨100, 200, 300, 150⟩ "fix the roof" =
      p ++ "IMPORTANT: Focus your improvements ONLY on the specified area. Keep the rest of the drawing exactly as it is." ++ q) :=
  handleAreaRetryStep_spec c7Session ⟨100, 200, 300, 150⟩ "fix the roof"
    exInstr ⟨"orig", "image/png"⟩ rfl rfl

/-! Claim C8. -/

/-- C8: for a decoded `w × h` input, the normalizer leaves in-bound
dimensions unchanged, scales an out-of-bound image so that its larger
dimension is exactly 1024 while the other dimension is the input
dimension scaled by the same ratio and rounded to the nearest integer,
and always outputs the canonical `image/png` mime type. -/
theorem resizeImage_spec (encode : Nat → Nat → String) (w h : Nat)
    (hw : 0 < w) (hh : 0 < h) :
    (w ≤ 1024 → h ≤ 1024 → resizeDims w h 1024 1024 = (w, h)) ∧
    (1024 < w ∨ 1024 < h →
      max (resizeDims w h 1024 1024).1 (resizeDims w h 1024 1024).2 = 1024 ∧
      (h < w → resizeDims w h 1024 1024 = (1024, jsRound (h * 1024) w)) ∧
      (w ≤ h → resizeDims w h 1024 1024 = (jsRound (w * 1024) h, 1024))) ∧
    (resizeImage encode w h).mimeType = "image/png" ∧
    (resizeImage encode w h).width = (resizeDims w h 1024 1024).1 ∧
    (resizeImage encode w h).height = (resizeDims w h 1024 1024).2 := by
  have hx : h < w → jsRound (h * 1024) w ≤ 1024 := by
    intro hlt
    rw [jsRound]
    have hb : 0 < 2 * w := by omega
    have hlt2 : 2 * (h * 1024) + w < 1025 * (2 * w) := by omega
    have hdiv := (Nat.div_lt_iff_lt_mul hb).mpr hlt2
    omega
  have hy : w ≤ h → jsRound (w * 1024) h ≤ 1024 := by
    intro hle
    rw [jsRound]
    have hb : 0 < 2 * h := by omega
    have hlt2 : 2 * (w * 1024) + h < 1025 * (2 * h) := by omega
    have hdiv := (Nat.div_lt_iff_lt_mul hb).mpr hlt2
    omega
  refine ⟨?_, ?_, rfl, rfl, rfl⟩
  · intro h1 h2
    rw [resizeDims]
    by_cases hwh : h < w
    · rw [if_pos hwh, if_neg (by omega)]
    · rw [if_neg hwh, if_neg (by omega)]
  · intro hbig
    by_cases hwh : h < w
    · have hw1024 : 1024 < w := by
        rcases hbig with hb | hb
        · exact hb
        · omega
      have hdims : resizeDims w h 1024 1024 = (1024, jsRound (h * 1024) w) := by
        rw [resizeDims, if_pos hwh, if_pos hw1024]
      refine ⟨?_, fun _ => hdims, fun hc => absurd hc (by omega)⟩
      rw [hdims]
      exact Nat.max_eq_left (hx hwh)
    · have hwh' : w ≤ h := by omega
      have hh1024 : 1024 < h := by
        rcases hbig with hb | hb
        · omega
        · exact hb
      have hdims : resizeDims w h 1024 1024 = (jsRound (w * 1024) h, 1024) := by
        rw [resizeDims, if_neg hwh, if_pos hh1024]
      refine ⟨?_, fun hc => absurd hc hwh, fun _ => hdims⟩
      rw [hdims]
      exact Nat.max_eq_right (hy hwh')

/-- Abstract canvas encoder used in concrete normalizer runs. -/
def exEncode : Nat → Nat → String := fun _ _ => "px"

/-- Witness for `resizeImage_spec` at a 2048 × 1024 input, which scales
to 1024 × 512. -/
theorem resizeImage_spec_witness :
    ((2048 : Nat) ≤ 1024 → (1024 : Nat) ≤ 1024 →
      resizeDims 2048 1024 1024 1024 = (2048, 1024)) ∧
    (1024 < 2048 ∨ 1024 < 1024 →
      max (resizeDims 2048 1024 1024 1024).1 (resizeDims 2048 1024 1024 1024).2 = 1024 ∧
      (1024 < 2048 → resizeDims 2048 1024 1024 1024 = (1024, jsRound (1024 * 1024) 2048)) ∧
      (2048 ≤ 1024 → resizeDims 2048 1024 1024 1024 = (jsRound (2048 * 1024) 1024, 1024))) ∧
    (resizeImage exEncode 2048 1024).mimeType = "image/png" ∧
    (resizeImage exEncode 2048 1024).width = (resizeDims 2048 1024 1024 1024).1 ∧
    (resizeImage exEncode 2048 1024).height = (resizeDims 2048 1024 1024 1024).2 :=
  resizeImage_spec exEncode 2048 1024 (by decide) (by decide)

/-! Claim C3. -/

/-- The remote results behave as §4.2 promises: while steps remain, an
accepted step's validation supplies instructions for the following step,
numbered consecutively. -/
def suppliesNext (results : Nat → LoopResult) (T : Nat) : Prop :=
  ∀ k, 1 ≤ k → k < T → ∃ ni,
    (results k).validation.instructionsForNextStep = some ni ∧ ni.stepNumber = k + 1

/-- Invariant of the accept cycle after `m` accepted steps: a
`processStep` call for step `m + 1` is pending and the history holds
exactly steps 1 to `m`, in order. -/
def RunInv (T m : Nat) (sp : Session × Option PendingCall) : Prop :=
  sp.1.totalSteps = T ∧
  sp.1.currentStepNumber = m + 1 ∧
  sp.1.acceptedSteps.map DrawingStep.step = List.range' 1 m ∧
  (∃ oi, sp.1.originalImage = some oi) ∧
  ∃ p, sp.2 = some p ∧ p.instructions.stepNumber = m + 1

theorem acceptRun_none (results : Nat → LoopResult) :
    ∀ n s, acceptRun results n (s, none) = (s, none) := by
  intro n s
  cases n <;> rfl

theorem handleAcceptStep_next (s : Session) (ps : DrawingStep) (oi : ImageObject)
    (ni : ExpertInstruction)
    (hps : s.proposedStep = some ps) (hoi : s.originalImage = some oi)
    (hni : s.nextStepInstructions = some ni)
    (hle : s.currentStepNumber + 1 ≤ s.totalSteps) :
    handleAcceptStep s =
      (processStepStart { s with
          acceptedSteps := s.acceptedSteps ++ [ps]
          currentCanvas := some (canvasOfProposed ps.imageUrl)
          proposedStep := none
          proposedStepInstructions := none
          currentStepNumber := s.currentStepNumber + 1 } ni,
       some ⟨ni, some (canvasOfProposed ps.imageUrl), oi, none⟩) := by
  simp only [handleAcceptStep, hps, hoi, hni]
  rw [if_pos hle]

theorem handleAcceptStep_results_of_last (s : Session) (ps : DrawingStep)
    (oi : ImageObject) (ni : ExpertInstruction)
    (hps : s.proposedStep = some ps) (hoi : s.originalImage = some oi)
    (hni : s.nextStepInstructions = some ni)
    (hgt : ¬ s.currentStepNumber + 1 ≤ s.totalSteps) :
    handleAcceptStep s =
      ({ s with
          acceptedSteps := s.acceptedSteps ++ [ps]
          currentCanvas := some (canvasOfProposed ps.imageUrl)
          proposedStep := none
          proposedStepInstructions := none
          currentStepNumber := s.currentStepNumber + 1
          appState := AppStateEnum.RESULTS }, none) := by
  simp only [handleAcceptStep, hps, hoi, hni]
  rw [if_neg hgt]

theorem handleAcceptStep_results_of_none (s : Session) (ps : DrawingStep)
    (oi : ImageObject)
    (hps : s.proposedStep = some ps) (hoi : s.originalImage = some oi)
    (hni : s.nextStepInstructions = none) :
    handleAcceptStep s =
      ({ s with
          acceptedSteps := s.acceptedSteps ++ [ps]
          currentCanvas := some (canvasOfProposed ps.imageUrl)
          proposedStep := none
          proposedStepInstructions := none
          currentStepNumber := s.currentStepNumber + 1
          appState := AppStateEnum.RESULTS }, none) := by
  simp only [handleAcceptStep, hps, hoi, hni]

theorem acceptRun_reaches_results (results : Nat → LoopResult) (T : Nat)
    (hsup : suppliesNext results T) :
    ∀ n m sp, RunInv T m sp → m + n = T → 1 ≤ n →
      (acceptRun results n sp).1.appState = AppStateEnum.RESULTS ∧
      (acceptRun results n sp).1.acceptedSteps.map DrawingStep.step = List.range' 1 T := by
  intro n
  induction n with
  | zero => intro m sp _ _ hn; exact absurd hn (by omega)
  | succ n ih =>
      intro m sp hinv hmn _
      obtain ⟨s, sp2⟩ := sp
      obtain ⟨hT, hcur, hmap, ⟨oi, hoi⟩, p, hp, hpstep⟩ := hinv
      simp only at hT hcur hmap hoi hp
      subst hp
      rw [acceptRun, hpstep]
      set s1 := processStepFinish s p.instructions (StepOutcome.ok (results (m + 1)))
        with hs1def
      have hs1prop : s1.proposedStep = some
          ⟨p.instructions.stepNumber, p.instructions.whatToDraw,
            dataUrl (results (m + 1)).image⟩ := rfl
      have hs1oi : s1.originalImage = some oi := hoi
      have hs1cur : s1.currentStepNumber = m + 1 := hcur
      have hs1T : s1.totalSteps = T := hT
      have hmap' : (s1.acceptedSteps ++
          [(⟨p.instructions.stepNumber, p.instructions.whatToDraw,
            dataUrl (results (m + 1)).image⟩ : DrawingStep)]).map DrawingStep.step =
          List.range' 1 (m + 1) := by
        show (s.acceptedSteps ++ [_]).map DrawingStep.step = _
        rw [List.map_append, hmap, List.map_cons, List.map_nil]
        show List.range' 1 m ++ [p.instructions.stepNumber] = _
        rw [hpstep, List.range'_concat]
        have harith : 1 + 1 * m = m + 1 := by omega
        rw [harith]
      by_cases hlast : m + 1 < T
      · obtain ⟨ni, hni, hnistep⟩ := hsup (m + 1) (by omega) hlast
        have hs1next : s1.nextStepInstructions = some ni := by
          show ((results (m + 1)).validation.instructionsForNextStep).orElse _ = some ni
          rw [hni]
          rfl
        rw [handleAcceptStep_next s1 _ oi ni hs1prop hs1oi hs1next
          (by rw [hs1cur, hs1T]; omega)]
        refine ih (m + 1) _ ⟨?_, ?_, ?_, ⟨oi, ?_⟩, ⟨_, rfl, ?_⟩⟩ (by omega) (by omega)
        · exact hs1T
        · show s1.currentStepNumber + 1 = m + 1 + 1
          rw [hs1cur]
        · exact hmap'
        · exact hs1oi
        · show ni.stepNumber = m + 1 + 1
          omega
      · have hmT : m + 1 = T := by omega
        have hgt : ¬ s1.currentStepNumber + 1 ≤ s1.totalSteps := by
          rw [hs1cur, hs1T]; omega
        cases hni : s1.nextStepInstructions with
        | some ni =>
            rw [handleAcceptStep_results_of_last s1 _ oi ni hs1prop hs1oi hni hgt,
              acceptRun_none]
            exact ⟨rfl, by rw [← hmT]; exact hmap'⟩
        | none =>
            rw [handleAcceptStep_results_of_none s1 _ oi hs1prop hs1oi hni,
              acceptRun_none]
            exact ⟨rfl, by rw [← hmT]; exact hmap'⟩

/-- C3 (amended): the code enters `RESULTS` from an acceptance as soon
as either no steps remain or no next-step instructions are available.
When the remote results do supply consecutively numbered next-step
instructions while steps remain (`suppliesNext`), and the first-step
instructions carry step number 1, a run that lets every proposed step
settle and accepts it reaches `RESULTS` with `acceptedSteps` holding
exactly `totalSteps` entries whose step values are 1 to `totalSteps` in
order; without that supply guarantee `RESULTS` can be reached with fewer
accepted steps. -/
theorem tutorial_run_results (results : Nat → LoopResult) (s0 : Session)
    (img : ImageObject) (firstInstr : ExpertInstruction) (T : Nat)
    (hT : 1 ≤ T) (hTs : s0.totalSteps = T) (hfi : firstInstr.stepNumber = 1)
    (hsup : suppliesNext results T) :
    (acceptRun results T
        ((handleImageUploadSucceed s0 img firstInstr).1,
         some (handleImageUploadSucceed s0 img firstInstr).2)).1.appState =
      AppStateEnum.RESULTS ∧
    (acceptRun results T
        ((handleImageUploadSucceed s0 img firstInstr).1,
         some (handleImageUploadSucceed s0 img firstInstr).2)).1.acceptedSteps.map
      DrawingStep.step = List.range' 1 T ∧
    (acceptRun results T
        ((handleImageUploadSucceed s0 img firstInstr).1,
         some (handleImageUploadSucceed s0 img firstInstr).2)).1.acceptedSteps.length = T := by
  have hinv : RunInv T 0
      ((handleImageUploadSucceed s0 img firstInstr).1,
       some (handleImageUploadSucceed s0 img firstInstr).2) :=
    ⟨hTs, rfl, rfl, ⟨img, rfl⟩, ⟨_, rfl, hfi⟩⟩
  have hmain := acceptRun_reaches_results results T hsup T 0 _ hinv (by omega) hT
  refine ⟨hmain.1, hmain.2, ?_⟩
  have hlen := congrArg List.length hmain.2
  simpa using hlen

/-- Loop results whose validations never supply next-step instructions. -/
def cexResults : Nat → LoopResult := fun _ =>
  ⟨⟨"img", "image/png"⟩, 1, 80, ⟨true, 80, [], NextAction.proceed, none, none⟩⟩

/-- Loop results that supply consecutively numbered next-step
instructions for a ten-step tutorial. -/
def goodResults : Nat → LoopResult := fun k =>
  ⟨⟨"img", "image/png"⟩, 1, 80,
   ⟨true, 80, [], NextAction.proceed, none,
    some ⟨k + 1, 10, 10 * (k + 1), "refine", "add detail", "no rush"⟩⟩⟩

/-- First-step instructions used in the concrete tutorial runs. -/
def c3FirstInstr : ExpertInstruction :=
  ⟨1, 10, 10, "oval", "draw a rough oval", "no detail"⟩

/-- C3 is false on the code: when the accepted step's validation carries
no `instructionsForNextStep`, `handleAcceptStep` enters `RESULTS` even
though only 1 of the 10 tutorial steps has been accepted. -/
theorem early_results_counterexample :
    (acceptRun cexResults 1
        ((handleImageUploadSucceed initialSession ⟨"o", "image/png"⟩ c3FirstInstr).1,
         some (handleImageUploadSucceed initialSession ⟨"o", "image/png"⟩ c3FirstInstr).2)).1.appState =
      AppStateEnum.RESULTS ∧
    (acceptRun cexResults 1
        ((handleImageUploadSucceed initialSession ⟨"o", "image/png"⟩ c3FirstInstr).1,
         some (handleImageUploadSucceed initialSession ⟨"o", "image/png"⟩ c3FirstInstr).2)).1.acceptedSteps.length =
      1 ∧
    (acceptRun cexResults 1
        ((handleImageUploadSucceed initialSession ⟨"o", "image/png"⟩ c3FirstInstr).1,
         some (handleImageUploadSucceed initialSession ⟨"o", "image/png"⟩ c3FirstInstr).2)).1.totalSteps =
      10 ∧
    ¬ (acceptRun cexResults 1
        ((handleImageUploadSucceed initialSession ⟨"o", "image/png"⟩ c3FirstInstr).1,
         some (handleImageUploadSucceed initialSession ⟨"o", "image/png"⟩ c3FirstInstr).2)).1.acceptedSteps.length =
      10 := by
  exact ⟨rfl, rfl, rfl, by decide⟩

/-- Witness for `tutorial_run_results`: a full well-supplied ten-step
run. -/
theorem tutorial_run_results_witness :
    (acceptRun goodResults 10
        ((handleImageUploadSucceed initialSession ⟨"o", "image/png"⟩ c3FirstInstr).1,
         some (handleImageUploadSucceed initialSession ⟨"o", "image/png"⟩ c3FirstInstr).2)).1.appState =
      AppStateEnum.RESULTS ∧
    (acceptRun goodResults 10
        ((handleImageUploadSucceed initialSession ⟨"o", "image/png"⟩ c3FirstInstr).1,
         some (handleImageUploadSucceed initialSession ⟨"o", "image/png"⟩ c3FirstInstr).2)).1.acceptedSteps.map
      DrawingStep.step = List.range' 1 10 ∧
    (acceptRun goodResults 10
        ((handleImageUploadSucceed initialSession ⟨"o", "image/png"⟩ c3FirstInstr).1,
         some (handleImageUploadSucceed initialSession ⟨"o", "image/png"⟩ c3FirstInstr).2)).1.acceptedSteps.length =
      10 :=
  tutorial_run_results goodResults initialSession ⟨"o", "image/png"⟩ c3FirstInstr 10
    (by decide) rfl rfl
    (fun k _ _ => ⟨⟨k + 1, 10, 10 * (k + 1), "refine", "add detail", "no rush"⟩, rfl, rfl⟩)

end DrawEasy
